import Mathlib

/-!
Verification development for the editing core of `edot` (src/src/location.rs,
src/src/edot.rs).

The text buffer (`ropey::Rope`) is modelled as a `List Char`.  Ropey's line
decomposition is reproduced by `lines`: every line except possibly the last
ends with `'\n'`, and a rope that ends with `'\n'` (or is empty) has a final
empty line, so `lines []` is `[[]]` and `len_lines` is always at least 1.
As in the spec's data model, `'\n'` is the one line terminator (ropey can
optionally recognise further Unicode line breaks; nothing in the editor or
its spec relies on them).

Process aborts are modelled explicitly: the source can abort via
`panic!(MovementError::SelectionEmpty)` in `Position::validate`, via
`NonZeroUsize::new(0).unwrap()` when `Line` arithmetic underflows below 1,
via `assert_eq!`, via `.unwrap()` on a movement `Result`, and via ropey's
own out-of-bounds panics (`Rope::line`, `Rope::insert_char`, `Rope::remove`).
All of these appear as the `panicked` constructor of the result types below;
`panicked (some e)` records a `panic!` whose payload is the `MovementError`
`e`, `panicked none` is any other abort.

Container indexing (`IdVec`, `Vec`) is totalised with `List.getD` /
`List.set` and explicit defaults; every theorem below only exercises it at
in-bounds indices, where this agrees with the source (which would panic when
out of bounds).
-/

/-- Movement directions, from `Movement` in location.rs. -/
inductive Movement
  | left
  | right
  | up
  | down
  | lineStart
  | lineEnd
  | fileStart
  | fileEnd
deriving DecidableEq, Repr

/-- Movement errors, from `MovementError` in location.rs. -/
inductive MovementError
  | selectionEmpty
  | noPrevLine
  | noNextLine
deriving DecidableEq, Repr

/-- A buffer position, one-based line and column (`Position` in location.rs;
`Line` and `Column` wrap `NonZeroUsize`, so the source can only represent
values that are at least 1). -/
structure Position where
  line : Nat
  column : Nat
deriving DecidableEq, Repr

/-- A selection: anchor `start`, live cursor `end_` (`Selection`). -/
structure Selection where
  start : Position
  end_ : Position
deriving DecidableEq, Repr

/-! ## Rope model (ropey semantics) -/

/-- Ropey's line decomposition of a rope: each `'\n'` terminates a line and
is part of it, and there is one trailing line after the last `'\n'`
(possibly empty).  `lines []` is `[[]]`, matching `Rope::len_lines() == 1`
for the empty rope. -/
def lines : List Char → List (List Char)
  | [] => [[]]
  | c :: cs =>
    if c = '\n' then [c] :: lines cs
    else
      match lines cs with
      | [] => [[c]]
      | l :: ls => (c :: l) :: ls

/-- Number of lines of a rope (`Rope::len_lines`). -/
def numLines (rope : List Char) : Nat := (lines rope).length

/-- The `l`-th line, one-based (`Line::slice_of`, i.e. `Rope::line`).
Total here; the source panics when `l` exceeds `numLines`, which the
definitions below guard explicitly at every access site. -/
def lineOf (rope : List Char) (l : Nat) : List Char := (lines rope).getD (l - 1) []

/-- Character offset where line `l` starts (`Line::char_of`, i.e.
`Rope::line_to_char`): the total length of the preceding lines. -/
def lineStartChar (rope : List Char) (l : Nat) : Nat :=
  (((lines rope).take (l - 1)).map List.length).sum

/-- Character offset of a position (`Position::char_of`):
line start plus zero-based column. -/
def Position.char_of (p : Position) (rope : List Char) : Nat :=
  lineStartChar rope p.line + (p.column - 1)

/-- Validity of a position against a rope (`Position::is_valid`):
the one-based column is at most the character length of its line (the
trailing newline counts, so a cursor may rest on it). -/
def Position.is_valid (p : Position) (rope : List Char) : Bool :=
  p.column ≤ (lineOf rope p.line).length

/-! ## Result types -/

/-- Outcome of a fallible position operation (`Result<(), MovementError>` on
`&mut self`): `ok` with the updated position, `err` with the error *and* the
position as the mutations performed before the throw left it, or a process
abort. -/
inductive MRes
  | ok (p : Position)
  | err (e : MovementError) (p : Position)
  | panicked (pe : Option MovementError)
deriving DecidableEq, Repr

/-- Outcome of `Position::validate`, whose source type is `()` so an error
return is impossible: success or abort. -/
inductive VRes
  | ok (p : Position)
  | panicked (pe : Option MovementError)
deriving DecidableEq, Repr

/-- Outcome of `Position::validate_fix`, which may also rewrite the rope. -/
inductive FRes
  | ok (rope : List Char) (p : Position)
  | panicked (pe : Option MovementError)
deriving DecidableEq, Repr

/-- Sequencing for `MRes`: the `?` operator / plain sequencing of the
source; errors and aborts propagate. -/
def MRes.andThen (r : MRes) (f : Position → MRes) : MRes :=
  match r with
  | .ok p => f p
  | .err e p => .err e p
  | .panicked pe => .panicked pe

/-- Rust's `.unwrap()` on a movement result: an `Err` becomes an abort. -/
def MRes.unwrap : MRes → VRes
  | .ok p => .ok p
  | .err _ _ => .panicked none
  | .panicked pe => .panicked pe

/-! ## Primitive movements

Each arm of the `match` in `Position::move_to` is one definition; the
recursive calls `self.move_to(rope, Movement::Up)` etc. in the source are
calls to these primitives. -/

/-- The `Movement::Up` arm: fail with `NoPrevLine` on the first line, else
decrement the line. -/
def mUp (_rope : List Char) (p : Position) : MRes :=
  if p.line = 1 then .err .noPrevLine p
  else .ok { p with line := p.line - 1 }

/-- The `Movement::Down` arm: succeed only when the current line is not the
last and the line below is non-empty, else `NoNextLine`.  Evaluating the
line below aborts (ropey out-of-bounds) when the current line is beyond the
last line. -/
def mDown (rope : List Char) (p : Position) : MRes :=
  if p.line = numLines rope then .err .noNextLine p
  else if p.line + 1 ≤ numLines rope then
    if 0 < (lineOf rope (p.line + 1)).length then .ok { p with line := p.line + 1 }
    else .err .noNextLine p
  else .panicked none

/-- The `Movement::LineStart` arm: column := 1. -/
def mLineStart (_rope : List Char) (p : Position) : MRes :=
  .ok { p with column := 1 }

/-- The `Movement::LineEnd` arm: column := length of the current line.
Reading the line aborts when it is beyond the last line (as `Rope::line`
would), and `Column::from_one_based(0)` aborts via
`NonZeroUsize::new(0).unwrap()` when the line is empty. -/
def mLineEnd (rope : List Char) (p : Position) : MRes :=
  if p.line ≤ numLines rope then
    if (lineOf rope p.line).length = 0 then .panicked none
    else .ok { p with column := (lineOf rope p.line).length }
  else .panicked none

/-- The `Movement::FileStart` arm: line := 1, then `LineStart`. -/
def mFileStart (rope : List Char) (p : Position) : MRes :=
  mLineStart rope { p with line := 1 }

/-- The `Movement::FileEnd` arm: line := last line if it is non-empty, else
last line − 1 (which aborts via `NonZeroUsize` when the last line is line 1,
i.e. the rope is empty), then `LineStart`. -/
def mFileEnd (rope : List Char) (p : Position) : MRes :=
  let last := numLines rope
  if 0 < (lineOf rope last).length then mLineStart rope { p with line := last }
  else if last = 1 then .panicked none
  else mLineStart rope { p with line := last - 1 }

/-! ## Validation -/

/-- The `Position::validate` of location.rs.  If the position is invalid:
on an empty non-first line, move `Up` then `LineEnd` (both `.unwrap()`);
on an empty first line, `assert_eq!(rope.len_chars(), 0)`, reset the
position to (1,1) and execute `panic!(MovementError::SelectionEmpty)` — a
process abort; on a non-empty line, clamp with `LineEnd` (`.unwrap()`).
Checking validity itself reads the position's line, which aborts when the
line is beyond the last line. -/
def Position.validate (p : Position) (rope : List Char) : VRes :=
  if p.line ≤ numLines rope then
    if p.is_valid rope then .ok p
    else if (lineOf rope p.line).length = 0 then
      if p.line ≠ 1 then ((mUp rope p).andThen (mLineEnd rope)).unwrap
      else if rope.length = 0 then .panicked (some .selectionEmpty)
      else .panicked none
    else (mLineEnd rope p).unwrap
  else .panicked none

/-- Insert a character at a character offset (`Rope::insert_char`); aborts
when the offset exceeds the rope length. -/
def insertAt (rope : List Char) (i : Nat) (c : Char) : Option (List Char) :=
  if i ≤ rope.length then some (rope.take i ++ c :: rope.drop i) else none

/-- The `Position::validate_fix` of location.rs: identical to `validate`
except that the empty-first-line case repairs the rope by inserting `'\n'`
at offset 0 (after `assert_eq!(rope.len_chars(), 0)`) instead of panicking. -/
def Position.validate_fix (p : Position) (rope : List Char) : FRes :=
  if p.line ≤ numLines rope then
    if p.is_valid rope then .ok rope p
    else if (lineOf rope p.line).length = 0 then
      if p.line ≠ 1 then
        match ((mUp rope p).andThen (mLineEnd rope)).unwrap with
        | .ok q => .ok rope q
        | .panicked pe => .panicked pe
      else if rope.length = 0 then
        .ok ['\n'] { line := 1, column := 1 }
      else .panicked none
    else
      match (mLineEnd rope p).unwrap with
      | .ok q => .ok rope q
      | .panicked pe => .panicked pe
  else .panicked none

/-! ## move_to -/

/-- The full `Position::move_to`.  `Left` and `Right` first validate (which
mutates the position in place and can abort), then either step within the
line or wrap via `Up`+`LineEnd` / `Down`+`LineStart`; the remaining
directions are the primitives above. -/
def Position.move_to (p : Position) (rope : List Char) (m : Movement) : MRes :=
  match m with
  | .left =>
    match p.validate rope with
    | .ok q =>
      if q.column = 1 then
        if q.line ≠ 1 then (mUp rope q).andThen (mLineEnd rope)
        else .err .noPrevLine q
      else .ok { q with column := q.column - 1 }
    | .panicked pe => .panicked pe
  | .right =>
    match p.validate rope with
    | .ok q =>
      if q.line ≤ numLines rope then
        if q.column = (lineOf rope q.line).length then
          (mDown rope q).andThen (mLineStart rope)
        else .ok { q with column := q.column + 1 }
      else .panicked none
    | .panicked pe => .panicked pe
  | .up => mUp rope p
  | .down => mDown rope p
  | .lineStart => mLineStart rope p
  | .lineEnd => mLineEnd rope p
  | .fileStart => mFileStart rope p
  | .fileEnd => mFileEnd rope p

/-! ## Selection operations -/

/-- Lexicographic strict order on positions: line first, then column
(the derived `Ord` of `Position` in the source). -/
def Position.ltB (a b : Position) : Bool :=
  a.line < b.line || (a.line = b.line && a.column < b.column)

/-- Lexicographic order on positions, non-strict. -/
def Position.leB (a b : Position) : Bool :=
  a.line < b.line || (a.line = b.line && a.column ≤ b.column)

/-- The `Selection::flip`: swap anchor and cursor. -/
def Selection.flip (s : Selection) : Selection :=
  { start := s.end_, end_ := s.start }

/-- The `Selection::order` / `Selection::ordered`: flip when
`start > end`. -/
def Selection.ordered (s : Selection) : Selection :=
  if s.end_.ltB s.start then s.flip else s

/-- The `Selection::is_ordered` of location.rs: compares the unmodified
`start` against the *ordered* copy's `end`. -/
def Selection.is_ordered (s : Selection) : Bool :=
  s.start.leB s.ordered.end_

/-- The `Selection::range_of`: order a copy, then the half-open character
range from `start.char_of` to `end.char_of + 1` (the addressed range is
inclusive of both endpoints). -/
def Selection.range_of (s : Selection) (rope : List Char) : Nat × Nat :=
  let t := s.ordered
  (t.start.char_of rope, t.end_.char_of rope + 1)

/-- Remove a character range (`Rope::remove`); aborts when the range is
invalid. -/
def removeRange (rope : List Char) (a b : Nat) : Option (List Char) :=
  if a ≤ b ∧ b ≤ rope.length then some (rope.take a ++ rope.drop b) else none

/-- Outcome of `Selection::remove_from`, which mutates rope and selection
and whose only failure mode is an abort. -/
inductive SRes
  | ok (rope : List Char) (s : Selection)
  | panicked (pe : Option MovementError)
deriving DecidableEq, Repr

/-- The `Selection::remove_from` of location.rs: validate both endpoints,
order, remove the inclusive range, collapse `end` onto `start`, then
validate-and-fix both endpoints against the shrunk rope. -/
def Selection.remove_from (s : Selection) (rope : List Char) : SRes :=
  match s.start.validate rope with
  | .panicked pe => .panicked pe
  | .ok start' =>
    match s.end_.validate rope with
    | .panicked pe => .panicked pe
    | .ok end' =>
      let t := Selection.ordered { start := start', end_ := end' }
      let r := t.range_of rope
      match removeRange rope r.1 r.2 with
      | none => .panicked none
      | some rope' =>
        let u : Selection := { start := t.start, end_ := t.start }
        match u.start.validate_fix rope' with
        | .panicked pe => .panicked pe
        | .ok rope'' start'' =>
          match u.end_.validate_fix rope'' with
          | .panicked pe => .panicked pe
          | .ok rope''' end'' => .ok rope''' { start := start'', end_ := end'' }

/-! ## Editor model (edot.rs)

Only the state the event machine reads and writes is modelled: terminal
channels, drawing and dirty flags are external.  Command dispatch from
Command mode (`shlex` tokenisation plus the registry call) is passed to
`event` as a function parameter, since tokenisation is an external library;
the built-in command handlers themselves are modelled below. -/

/-- Editor modes (`Mode`). -/
inductive Mode
  | normal
  | insert
  | append
  | goto (drag : Bool)
  | command
deriving DecidableEq, Repr

/-- Input events the dispatcher distinguishes (`termion::event::Key`);
`other` stands for every key the source never matches. -/
inductive Key
  | char (c : Char)
  | esc
  | backspace
  | arrowLeft
  | arrowRight
  | arrowUp
  | arrowDown
  | other
deriving DecidableEq, Repr

/-- A window (`Window`): buffer id, mode, selections, pending command-line
text, scroll anchor. -/
structure Window where
  buffer : Nat
  mode : Mode
  selections : List Selection
  command : List Char
  top : Nat
deriving DecidableEq, Repr

/-- A buffer (`Buffer`): optional backing path, display name, content.
The `history` slot has no recorded variants and is omitted. -/
structure Buffer where
  path : Option (List Char)
  name : List Char
  content : List Char
deriving DecidableEq, Repr

/-- The editor (`Edot`): windows, buffers, focused window id, pending
status message. -/
structure Editor where
  windows : List Window
  buffers : List Buffer
  focused : Nat
  message : Option (List Char)
deriving DecidableEq, Repr

/-- Default used to totalise out-of-bounds window indexing. -/
def wdef : Window := { buffer := 0, mode := .normal, selections := [], command := [], top := 1 }

/-- Default used to totalise out-of-bounds buffer indexing. -/
def bdef : Buffer := { path := none, name := [], content := [] }

/-- Default used to totalise out-of-bounds selection indexing. -/
def sdef : Selection := { start := ⟨1, 1⟩, end_ := ⟨1, 1⟩ }

/-- Window lookup (`self.windows[window_id]`). -/
def Editor.winOf (ed : Editor) (wid : Nat) : Window := ed.windows.getD wid wdef

/-- Buffer lookup (`self.buffers[window.buffer]`). -/
def Editor.bufOf (ed : Editor) (bid : Nat) : Buffer := ed.buffers.getD bid bdef

/-- Content of the buffer viewed by a window. -/
def Editor.contentOf (ed : Editor) (wid : Nat) : List Char :=
  (ed.bufOf (ed.winOf wid).buffer).content

/-- Replace a window. -/
def Editor.setWin (ed : Editor) (wid : Nat) (w : Window) : Editor :=
  { ed with windows := ed.windows.set wid w }

/-- Replace the content of the buffer viewed by a window. -/
def Editor.setContent (ed : Editor) (wid : Nat) (rope : List Char) : Editor :=
  let bid := (ed.winOf wid).buffer
  { ed with buffers := ed.buffers.set bid { ed.bufOf bid with content := rope } }

/-- Replace one selection of a window. -/
def Editor.setSel (ed : Editor) (wid sid : Nat) (s : Selection) : Editor :=
  let w := ed.winOf wid
  ed.setWin wid { w with selections := w.selections.set sid s }

/-- Selection lookup (`window.selections[selection_id]`). -/
def Editor.selOf (ed : Editor) (wid sid : Nat) : Selection :=
  (ed.winOf wid).selections.getD sid sdef

/-- Outcome of a fallible editor operation (`#[throws] fn (&mut self, ..)`):
`ok`, or `err` with the error and the editor as the mutations made before
the throw left it, or a process abort. -/
inductive EdRes
  | ok (ed : Editor)
  | err (ed : Editor) (e : MovementError)
  | panicked (pe : Option MovementError)
deriving DecidableEq, Repr

/-- Sequencing for `EdRes` (the `?` operator / plain sequencing). -/
def EdRes.andThen (r : EdRes) (f : Editor → EdRes) : EdRes :=
  match r with
  | .ok ed => f ed
  | .err ed e => .err ed e
  | .panicked pe => .panicked pe

/-- The `Edot::set_mode`. -/
def Editor.set_mode (ed : Editor) (wid : Nat) (m : Mode) : Editor :=
  ed.setWin wid { ed.winOf wid with mode := m }

/-- The `Edot::selections`: the selection ids `0 .. len-1` of a window,
computed once before each per-selection loop. -/
def Editor.selIds (ed : Editor) (wid : Nat) : List Nat :=
  List.range (ed.winOf wid).selections.length

/-- The `Edot::order_selection`. -/
def Editor.order_selection (ed : Editor) (wid sid : Nat) : Editor :=
  ed.setSel wid sid (ed.selOf wid sid).ordered

/-- The `Edot::order_selections`. -/
def Editor.order_selections (ed : Editor) (wid : Nat) : Editor :=
  (ed.selIds wid).foldl (fun acc sid => acc.order_selection wid sid) ed

/-- The `Edot::insert_char_before`: insert at the *start* position's
character offset (aborts on an out-of-range offset, as `Rope::insert_char`
would). -/
def Editor.insert_char_before (ed : Editor) (wid sid : Nat) (c : Char) : EdRes :=
  let rope := ed.contentOf wid
  match insertAt rope ((ed.selOf wid sid).start.char_of rope) c with
  | some rope' => .ok (ed.setContent wid rope')
  | none => .panicked none

/-- The `Edot::insert_char_after`: insert at the *end* position's character
offset. -/
def Editor.insert_char_after (ed : Editor) (wid sid : Nat) (c : Char) : EdRes :=
  let rope := ed.contentOf wid
  match insertAt rope ((ed.selOf wid sid).end_.char_of rope) c with
  | some rope' => .ok (ed.setContent wid rope')
  | none => .panicked none

/-- The `Edot::move_selection`: move the selection's `end` (the `?` exits
after that in-place mutation on failure), then collapse `start` onto `end`
unless dragging. -/
def Editor.move_selection (ed : Editor) (wid sid : Nat) (m : Movement) (drag : Bool) : EdRes :=
  let rope := ed.contentOf wid
  let s := ed.selOf wid sid
  match s.end_.move_to rope m with
  | .ok e' =>
    let s' := if drag then { s with end_ := e' } else { start := e', end_ := e' }
    .ok (ed.setSel wid sid s')
  | .err e e' => .err (ed.setSel wid sid { s with end_ := e' }) e
  | .panicked pe => .panicked pe

/-- Loop body shared by the per-selection bulk operations: run `step` on
each id in order, stopping at the first error or abort (the `?` inside the
`for` loop of the source). -/
def edLoop (step : Editor → Nat → EdRes) : Editor → List Nat → EdRes
  | ed, [] => .ok ed
  | ed, sid :: rest =>
    match step ed sid with
    | .ok ed' => edLoop step ed' rest
    | .err ed' e => .err ed' e
    | .panicked pe => .panicked pe

/-- The `Edot::move_selections`: `move_selection` over all ids with `?`,
so the loop stops at the first failing selection. -/
def Editor.move_selections (ed : Editor) (wid : Nat) (m : Movement) (drag : Bool) : EdRes :=
  edLoop (fun acc sid => acc.move_selection wid sid m drag) ed (ed.selIds wid)

/-- The `Edot::shift_selection`: move `start`, then `end`; each `?` exits
with the mutations made so far in place. -/
def Editor.shift_selection (ed : Editor) (wid sid : Nat) (m : Movement) : EdRes :=
  let rope := ed.contentOf wid
  let s := ed.selOf wid sid
  match s.start.move_to rope m with
  | .err e s' => .err (ed.setSel wid sid { s with start := s' }) e
  | .panicked pe => .panicked pe
  | .ok s' =>
    match s.end_.move_to rope m with
    | .ok e' => .ok (ed.setSel wid sid { start := s', end_ := e' })
    | .err e e' => .err (ed.setSel wid sid { start := s', end_ := e' }) e
    | .panicked pe => .panicked pe

/-- The `Edot::delete_selection`: `Selection::remove_from` against the
window's buffer; its only failure mode is an abort. -/
def Editor.delete_selection (ed : Editor) (wid sid : Nat) : EdRes :=
  match (ed.selOf wid sid).remove_from (ed.contentOf wid) with
  | .ok rope' s' => .ok ((ed.setContent wid rope').setSel wid sid s')
  | .panicked pe => .panicked pe

/-- The `Edot::delete_selections`. -/
def Editor.delete_selections (ed : Editor) (wid : Nat) : EdRes :=
  edLoop (fun acc sid => acc.delete_selection wid sid) ed (ed.selIds wid)

/-- One iteration of the Insert-mode character loop: insert before the
cursor, then shift the whole selection right. -/
def insertStep (c : Char) (wid : Nat) (ed : Editor) (sid : Nat) : EdRes :=
  (ed.insert_char_before wid sid c).andThen fun ed' => ed'.shift_selection wid sid .right

/-- One iteration of the Append-mode character loop: extend the selection
right (drag), then insert after the cursor. -/
def appendStep (c : Char) (wid : Nat) (ed : Editor) (sid : Nat) : EdRes :=
  (ed.move_selection wid sid .right true).andThen fun ed' => ed'.insert_char_after wid sid c

/-- One iteration of the Normal-mode `o` loop: `LineEnd`, insert a newline
after, `Down`, `LineStart`. -/
def openLineStep (wid : Nat) (ed : Editor) (sid : Nat) : EdRes :=
  (ed.move_selection wid sid .lineEnd false).andThen fun e1 =>
    (e1.insert_char_after wid sid '\n').andThen fun e2 =>
      (e2.move_selection wid sid .down false).andThen fun e3 =>
        e3.move_selection wid sid .lineStart false

/-- The `Mode::Normal` arm of the event `match` in `Edot::event`. -/
def normalKey (ed : Editor) (k : Key) : EdRes :=
  match k with
    | .char c =>
      if c = 'i' then .ok ((ed.order_selections ed.focused).set_mode ed.focused .insert)
      else if c = 'c' then
        (ed.delete_selections ed.focused).andThen fun ed' =>
          .ok (ed'.set_mode ed'.focused .insert)
      else if c = 'a' then .ok ((ed.order_selections ed.focused).set_mode ed.focused .append)
      else if c = 'A' then
        (ed.move_selections ed.focused .lineEnd false).andThen fun ed' =>
          .ok (ed'.set_mode ed'.focused .insert)
      else if c = 'o' then
        (edLoop (openLineStep ed.focused) ed (ed.selIds ed.focused)).andThen fun ed' =>
          .ok (ed'.set_mode ed'.focused .insert)
      else if c = 'x' then .ok ed
      else if c = 'X' then .ok ed
      else if c = 'g' then .ok (ed.set_mode ed.focused (.goto false))
      else if c = 'G' then .ok (ed.set_mode ed.focused (.goto true))
      else if c = ':' then .ok (ed.set_mode ed.focused .command)
      else if c = 'h' then ed.move_selections ed.focused .left false
      else if c = 'j' then ed.move_selections ed.focused .down false
      else if c = 'k' then ed.move_selections ed.focused .up false
      else if c = 'l' then ed.move_selections ed.focused .right false
      else if c = 'H' then ed.move_selections ed.focused .left true
      else if c = 'J' then ed.move_selections ed.focused .down true
      else if c = 'K' then ed.move_selections ed.focused .up true
      else if c = 'L' then ed.move_selections ed.focused .right true
      else if c = 'd' then ed.delete_selections ed.focused
      else .ok ed
    | .arrowLeft => ed.move_selections ed.focused .left false
    | .arrowDown => ed.move_selections ed.focused .down false
    | .arrowUp => ed.move_selections ed.focused .up false
    | .arrowRight => ed.move_selections ed.focused .right false
    | _ => .ok ed

/-- The `Mode::Goto` arm of the event `match`: the four movement keys run a
bulk move with the captured drag flag (any `?`-error would exit before the
mode reset), then the mode returns to Normal regardless of key. -/
def gotoKey (ed : Editor) (drag : Bool) (k : Key) : EdRes :=
  let res : EdRes :=
    match k with
    | .char c =>
      if c = 'h' then ed.move_selections ed.focused .lineStart drag
      else if c = 'j' then ed.move_selections ed.focused .fileEnd drag
      else if c = 'k' then ed.move_selections ed.focused .fileStart drag
      else if c = 'l' then ed.move_selections ed.focused .lineEnd drag
      else .ok ed
    | _ => .ok ed
  res.andThen fun ed' => .ok (ed'.set_mode ed'.focused .normal)

/-- The `Mode::Insert` arm of the event `match`. -/
def insertKey (ed : Editor) (k : Key) : EdRes :=
  match k with
  | .esc => .ok (ed.set_mode ed.focused .normal)
  | .char c => edLoop (insertStep c ed.focused) ed (ed.selIds ed.focused)
  | .backspace =>
    (ed.move_selections ed.focused .left false).andThen fun ed' =>
      ed'.delete_selections ed'.focused
  | _ => .ok ed

/-- The `Mode::Append` arm of the event `match`. -/
def appendKey (ed : Editor) (k : Key) : EdRes :=
  match k with
  | .esc => .ok (ed.set_mode ed.focused .normal)
  | .char c => edLoop (appendStep c ed.focused) ed (ed.selIds ed.focused)
  | .backspace =>
    (ed.move_selections ed.focused .left false).andThen fun ed' =>
      ed'.delete_selections ed'.focused
  | _ => .ok ed

/-- The `Mode::Command` arm of the event `match`.  `dispatch` stands for
the Enter path (`shlex` tokenisation plus `Edot::cmd`), applied to the
editor after the command line has been taken and the mode reset to
Normal. -/
def commandKey (dispatch : Editor → List Char → EdRes) (ed : Editor) (k : Key) : EdRes :=
  match k with
  | .esc =>
    let ed' := ed.setWin ed.focused { ed.winOf ed.focused with command := [] }
    .ok (ed'.set_mode ed'.focused .normal)
  | .char c =>
    if c = '\t' then .ok ed
    else if c = '\n' then
      let cmdline := (ed.winOf ed.focused).command
      let ed' := ed.setWin ed.focused { ed.winOf ed.focused with command := [] }
      dispatch (ed'.set_mode ed'.focused .normal) cmdline
    else
      .ok (ed.setWin ed.focused
        { ed.winOf ed.focused with command := (ed.winOf ed.focused).command ++ [c] })
  | .backspace =>
    match (ed.winOf ed.focused).command with
    | [] => .ok (ed.set_mode ed.focused .normal)
    | cs => .ok (ed.setWin ed.focused { ed.winOf ed.focused with command := cs.dropLast })
  | _ => .ok ed

/-- The `Edot::event` of edot.rs, dispatching one input event against the
focused window's mode. -/
def Editor.event (dispatch : Editor → List Char → EdRes) (ed : Editor) (k : Key) : EdRes :=
  match (ed.winOf ed.focused).mode with
  | .normal => normalKey ed k
  | .goto drag => gotoKey ed drag k
  | .insert => insertKey ed k
  | .append => appendKey ed k
  | .command => commandKey dispatch ed k

/-- Feed a key sequence through `Editor.event`, stopping at the first error
or abort (each main-loop iteration handles one event; an error would be
shown as a status message, but the scenarios below never produce one). -/
def processKeys (dispatch : Editor → List Char → EdRes) (ed : Editor) : List Key → EdRes
  | [] => .ok ed
  | k :: ks =>
    match Editor.event dispatch ed k with
    | .ok ed' => processKeys dispatch ed' ks
    | .err ed' e => .err ed' e
    | .panicked pe => .panicked pe

/-- The editor state built by `Edot::new`: one scratch buffer whose content
is a single newline, one window in Normal mode with one selection at
(1,1)–(1,1). -/
def initEditor : Editor :=
  { windows := [{ buffer := 0, mode := .normal,
                  selections := [{ start := ⟨1, 1⟩, end_ := ⟨1, 1⟩ }],
                  command := [], top := 1 }],
    buffers := [{ path := none, name := "scratch".toList, content := ['\n'] }],
    focused := 0,
    message := none }

/-! ## Command registry and dispatch (edot.rs) -/

/-- Outcome of running a registered command (`anyhow::Result`): success,
a human-readable error message, or an abort. -/
inductive CRes
  | ok (ed : Editor)
  | err (msg : List Char)
  | panicked
deriving DecidableEq, Repr

/-- The `Edit::run` of edot.rs, against a filesystem oracle `fs` mapping a
path to its contents when it exists and is readable.  Indexing `args[0]` on
an empty argument slice aborts (the registry's declared required-argument
count is not enforced before dispatch).  Canonicalisation/open of a missing
path is an error, raised before any editor mutation; on success a new
buffer and a new window are appended and focus moves to the new window. -/
def editRun (fs : List Char → Option (List Char)) (ed : Editor)
    (args : List (List Char)) : CRes :=
  match args with
  | [] => .panicked
  | path :: _ =>
    match fs path with
    | none => .err ("No such file or directory".toList)
    | some contents =>
      let bufferId := ed.buffers.length
      let buffers' := ed.buffers ++ [{ path := some path, name := path, content := contents }]
      let w : Window :=
        { buffer := bufferId, mode := .normal,
          selections := [{ start := ⟨1, 1⟩, end_ := ⟨1, 1⟩ }],
          command := [], top := 1 }
      let windowId := ed.windows.length
      .ok { ed with buffers := buffers', windows := ed.windows ++ [w], focused := windowId }

/-- The `Quit::run` of edot.rs: sends on the exit channel, which lives
outside the modelled state; the editor itself is untouched. -/
def quitRun (ed : Editor) (_args : List (List Char)) : CRes := .ok ed

/-- The `Edot::cmd` of edot.rs over the start-up registry
(`q`/`quit` → `Quit::run`, `e`/`edit` → `Edit::run`): empty argv and
unknown names are reported errors. -/
def cmdDispatch (fs : List Char → Option (List Char)) (ed : Editor)
    (argv : List (List Char)) : CRes :=
  match argv with
  | [] => .err ("no command given".toList)
  | name :: rest =>
    if name = "e".toList ∨ name = "edit".toList then editRun fs ed rest
    else if name = "q".toList ∨ name = "quit".toList then quitRun ed rest
    else .err ("command doesn't exist".toList)

/-- Command dispatch as seen from the main loop (`Edot::run`): an error is
caught, logged and turned into the pending status message; the rest of the
editor state is whatever the handler left behind (for the registered
commands, unchanged on every error path). -/
def cmdRun (fs : List Char → Option (List Char)) (ed : Editor)
    (argv : List (List Char)) : EdRes :=
  match cmdDispatch fs ed argv with
  | .ok ed' => .ok ed'
  | .err m => .ok { ed with message := some m }
  | .panicked => .panicked none

/-! ## Auxiliary predicates and concrete states used by the theorems -/

/-- A position that actually addresses a character slot of the rope: the
line exists and the column is within the line (both one-based, hence
positive — `Line` and `Column` wrap `NonZeroUsize`).  On such positions the
source's `is_valid` is `true` and cannot panic. -/
def PosValid (rope : List Char) (p : Position) : Prop :=
  1 ≤ p.line ∧ p.line ≤ numLines rope ∧ 1 ≤ p.column ∧ p.column ≤ (lineOf rope p.line).length

/-- The four movements reachable from Goto mode. -/
def GotoMv (m : Movement) : Prop :=
  m = .lineStart ∨ m = .lineEnd ∨ m = .fileStart ∨ m = .fileEnd

/-- A window on buffer `"a\nb\n"` with two point selections, at (1,1) and
at (2,1). -/
def edTwoSel : Editor :=
  { windows := [{ buffer := 0, mode := .normal,
                  selections := [{ start := ⟨1, 1⟩, end_ := ⟨1, 1⟩ },
                                 { start := ⟨2, 1⟩, end_ := ⟨2, 1⟩ }],
                  command := [], top := 1 }],
    buffers := [{ path := none, name := [], content := "a\nb\n".toList }],
    focused := 0,
    message := none }

/-- The fresh editor with its focused window switched to Goto mode. -/
def gotoEd : Editor := initEditor.set_mode 0 (.goto false)

/-- Loop of `Edot::for_each_selection`: run `f` on each id in order; an
`Err` is pushed onto the error vector and the loop *continues* with the
editor as `f` left it; a panic in `f` aborts.  After the loop,
`errors.pop()` surfaces the *last* collected error (`Err`), or the run
succeeds when none was collected. -/
def for_each_go (f : Editor → Nat → Nat → EdRes) (wid : Nat) :
    Editor → List MovementError → List Nat → EdRes
  | ed, errs, [] =>
    match errs.getLast? with
    | some e => .err ed e
    | none => .ok ed
  | ed, errs, i :: rest =>
    match f ed wid i with
    | .ok ed' => for_each_go f wid ed' errs rest
    | .err ed' e => for_each_go f wid ed' (errs ++ [e]) rest
    | .panicked pe => .panicked pe

/-- The `Edot::for_each_selection` of edot.rs: apply `f` to every selection
id with the collect-errors-and-continue policy, starting from an empty
error vector.  The closure's error type (`anyhow::Error` in the source) is
modelled as `MovementError`, the payload the editor's own fallible
operations produce. -/
def Editor.for_each_selection (ed : Editor) (wid : Nat)
    (f : Editor → Nat → Nat → EdRes) : EdRes :=
  for_each_go f wid ed [] (ed.selIds wid)

/-- Specification mirror of the `for_each_selection` run, used only to
state the last-error property: the editor after processing *every* id and
the list of errors the steps produced, in order; `none` when some step
aborts. -/
def runSteps (f : Editor → Nat → Nat → EdRes) (wid : Nat) :
    Editor → List Nat → Option (Editor × List MovementError)
  | ed, [] => some (ed, [])
  | ed, i :: rest =>
    match f ed wid i with
    | .ok ed' => runSteps f wid ed' rest
    | .err ed' e =>
      match runSteps f wid ed' rest with
      | some (edf, es) => some (edf, e :: es)
      | none => none
    | .panicked _ => none

/-! ## Helper lemmas -/

theorem lines_ne_nil (rope : List Char) : lines rope ≠ [] := by
  induction rope with
  | nil => simp [lines]
  | cons c cs ih =>
    unfold lines
    split
    · simp
    · cases h : lines cs with
      | nil => simp
      | cons l ls => simp

theorem numLines_pos (rope : List Char) : 0 < numLines rope := by
  have := lines_ne_nil rope
  unfold numLines
  cases h : lines rope with
  | nil => exact absurd h this
  | cons l ls => simp

theorem lines_eq_singleton (rope : List Char) (h : numLines rope = 1) :
    lines rope = [rope] := by
  induction rope with
  | nil => simp [lines]
  | cons c cs ih =>
    unfold numLines at h
    unfold lines at h ⊢
    by_cases hc : c = '\n'
    · simp only [hc, if_true, List.length_cons] at h
      have := numLines_pos cs
      unfold numLines at this
      omega
    · simp only [hc, if_false] at h ⊢
      cases hcs : lines cs with
      | nil => exact absurd hcs (lines_ne_nil cs)
      | cons l ls =>
        simp only [hcs, List.length_cons] at h
        have hls : ls = [] := List.length_eq_zero.mp (by omega)
        subst hls
        have : numLines cs = 1 := by simp [numLines, hcs]
        have := ih this
        rw [hcs] at this
        simp only [List.cons.injEq] at this
        simp [this.1]

theorem getD_set_self {α : Type} (l : List α) (i : Nat) (a d : α)
    (h : i < l.length) : (l.set i a).getD i d = a := by
  induction l generalizing i with
  | nil => simp at h
  | cons x xs ih =>
    cases i with
    | zero => simp [List.set, List.getD]
    | succ n =>
      simp only [List.set, List.length_cons] at h ⊢
      simpa [List.getD] using ih n (by omega)

theorem validate_of_valid (rope : List Char) (p : Position) (h : PosValid rope p) :
    p.validate rope = .ok p := by
  obtain ⟨h1, h2, h3, h4⟩ := h
  unfold Position.validate
  rw [if_pos h2]
  have : p.is_valid rope = true := by
    simp [Position.is_valid, h4]
  rw [if_pos this]

theorem mLineStart_not_err (rope : List Char) (p : Position) (e : MovementError)
    (q : Position) : mLineStart rope p ≠ .err e q := by
  simp [mLineStart]

theorem mLineEnd_not_err (rope : List Char) (p : Position) (e : MovementError)
    (q : Position) : mLineEnd rope p ≠ .err e q := by
  unfold mLineEnd
  split
  · split <;> simp
  · simp

theorem mFileStart_not_err (rope : List Char) (p : Position) (e : MovementError)
    (q : Position) : mFileStart rope p ≠ .err e q := by
  simp [mFileStart, mLineStart]

theorem mFileEnd_not_err (rope : List Char) (p : Position) (e : MovementError)
    (q : Position) : mFileEnd rope p ≠ .err e q := by
  unfold mFileEnd
  by_cases h1 : 0 < (lineOf rope (numLines rope)).length
  · simp [h1, mLineStart]
  · by_cases h2 : numLines rope = 1
    · rw [h2] at h1
      simp [h1, h2]
    · simp [h1, h2, mLineStart]

theorem move_to_gotoMv_not_err (rope : List Char) (p : Position) (m : Movement)
    (hm : GotoMv m) (e : MovementError) (q : Position) :
    p.move_to rope m ≠ .err e q := by
  rcases hm with h | h | h | h <;> subst h
  · exact mLineStart_not_err rope p e q
  · exact mLineEnd_not_err rope p e q
  · exact mFileStart_not_err rope p e q
  · exact mFileEnd_not_err rope p e q

theorem move_selection_gotoMv_not_err (ed : Editor) (wid sid : Nat) (m : Movement)
    (drag : Bool) (hm : GotoMv m) (ed' : Editor) (e : MovementError) :
    ed.move_selection wid sid m drag ≠ .err ed' e := by
  unfold Editor.move_selection
  cases h : (ed.selOf wid sid).end_.move_to (ed.contentOf wid) m with
  | ok p => simp [h]
  | err e' p => exact absurd h (move_to_gotoMv_not_err _ _ _ hm e' p)
  | panicked pe => simp [h]

theorem edLoop_moveSel_not_err (wid : Nat) (m : Movement) (drag : Bool)
    (hm : GotoMv m) (ids : List Nat) (ed : Editor) (ed' : Editor) (e : MovementError) :
    edLoop (fun acc sid => acc.move_selection wid sid m drag) ed ids ≠ .err ed' e := by
  induction ids generalizing ed with
  | nil => simp [edLoop]
  | cons i rest ih =>
    unfold edLoop
    cases h : ed.move_selection wid i m drag with
    | ok ed2 => exact ih ed2
    | err ed2 e2 => exact absurd h (move_selection_gotoMv_not_err ed wid i m drag hm ed2 e2)
    | panicked pe => simp

theorem move_selections_gotoMv_not_err (ed : Editor) (wid : Nat) (m : Movement)
    (drag : Bool) (hm : GotoMv m) (ed' : Editor) (e : MovementError) :
    ed.move_selections wid m drag ≠ .err ed' e :=
  edLoop_moveSel_not_err wid m drag hm (ed.selIds wid) ed ed' e

theorem move_selection_ok_shape (ed : Editor) (wid sid : Nat) (m : Movement)
    (drag : Bool) (ed' : Editor) (h : ed.move_selection wid sid m drag = .ok ed') :
    ed'.focused = ed.focused ∧ ed'.windows.length = ed.windows.length := by
  unfold Editor.move_selection at h
  cases hmv : (ed.selOf wid sid).end_.move_to (ed.contentOf wid) m <;>
    simp only [hmv] at h
  case ok p =>
    simp only [EdRes.ok.injEq] at h
    subst h
    simp [Editor.setSel, Editor.setWin]
  case err e' p =>
    exact absurd h (by simp)
  case panicked pe =>
    exact absurd h (by simp)

theorem edLoop_moveSel_ok_shape (wid : Nat) (m : Movement) (drag : Bool)
    (ids : List Nat) (ed ed' : Editor)
    (h : edLoop (fun acc sid => acc.move_selection wid sid m drag) ed ids = .ok ed') :
    ed'.focused = ed.focused ∧ ed'.windows.length = ed.windows.length := by
  induction ids generalizing ed with
  | nil =>
    unfold edLoop at h
    simp at h
    subst h
    exact ⟨rfl, rfl⟩
  | cons i rest ih =>
    unfold edLoop at h
    cases hs : ed.move_selection wid i m drag <;> rw [hs] at h <;> simp at h
    obtain ⟨h1, h2⟩ := move_selection_ok_shape ed wid i m drag _ hs
    obtain ⟨h3, h4⟩ := ih _ h
    exact ⟨h3.trans h1, h4.trans h2⟩

theorem move_selections_ok_shape (ed : Editor) (wid : Nat) (m : Movement)
    (drag : Bool) (ed' : Editor) (h : ed.move_selections wid m drag = .ok ed') :
    ed'.focused = ed.focused ∧ ed'.windows.length = ed.windows.length :=
  edLoop_moveSel_ok_shape wid m drag (ed.selIds wid) ed ed' h

theorem set_mode_focused_mode (ed : Editor) (m : Mode)
    (hf : ed.focused < ed.windows.length) :
    ((ed.set_mode ed.focused m).winOf (ed.set_mode ed.focused m).focused).mode = m := by
  unfold Editor.set_mode Editor.setWin Editor.winOf
  simp only
  rw [getD_set_self _ _ _ _ hf]

theorem gotoFinish (ed : Editor) (hf : ed.focused < ed.windows.length) (res : EdRes)
    (hshape : ∀ x, res = .ok x → x.focused = ed.focused ∧ x.windows.length = ed.windows.length)
    (hnoerr : ∀ x e, res ≠ .err x e) :
    (∀ ed', (res.andThen fun x => .ok (x.set_mode x.focused .normal)) = .ok ed' →
        (ed'.winOf ed'.focused).mode = .normal)
    ∧ (∀ ed' e, (res.andThen fun x => .ok (x.set_mode x.focused .normal)) ≠ .err ed' e) := by
  cases res with
  | ok x =>
    constructor
    · intro ed' h
      simp [EdRes.andThen] at h
      subst h
      obtain ⟨h1, h2⟩ := hshape x rfl
      have hx : x.focused < x.windows.length := by omega
      have := set_mode_focused_mode x .normal hx
      simpa using this
    · intro ed' e
      simp [EdRes.andThen]
  | err x e => exact absurd rfl (hnoerr x e)
  | panicked pe =>
    constructor
    · intro ed' h
      simp [EdRes.andThen] at h
    · intro ed' e
      simp [EdRes.andThen]

theorem getD_set_ne {α : Type} (l : List α) (i j : Nat) (a d : α) (h : i ≠ j) :
    (l.set i a).getD j d = l.getD j d := by
  induction l generalizing i j with
  | nil => simp
  | cons x xs ih =>
    cases i with
    | zero =>
      cases j with
      | zero => exact absurd rfl h
      | succ jn => simp [List.getD_cons_succ]
    | succ ni =>
      cases j with
      | zero => simp [List.getD_cons_zero]
      | succ jn => simpa [List.getD_cons_succ] using ih ni jn (by omega)

theorem getD_eq_default_of_le {α : Type} (l : List α) (i : Nat) (d : α)
    (h : l.length ≤ i) : l.getD i d = d := by
  induction l generalizing i with
  | nil => simp [List.getD]
  | cons x xs ih =>
    cases i with
    | zero => simp at h
    | succ n => simpa [List.getD_cons_succ] using ih n (by simpa using h)

theorem range_split (i n : Nat) (h : i < n) :
    ∃ rest, List.range n = List.range i ++ i :: rest := by
  induction n with
  | zero => omega
  | succ m ih =>
    rcases Nat.lt_succ_iff_lt_or_eq.mp h with h' | h'
    · obtain ⟨rest, hr⟩ := ih h'
      exact ⟨rest ++ [m], by rw [List.range_succ, hr]; simp⟩
    · subst h'
      exact ⟨[], by rw [List.range_succ]⟩

theorem edLoop_cons (step : Editor → Nat → EdRes) (ed : Editor) (i : Nat)
    (ids : List Nat) :
    edLoop step ed (i :: ids) =
      match step ed i with
      | .ok x => edLoop step x ids
      | .err x e => .err x e
      | .panicked pe => .panicked pe := rfl

theorem edLoop_append (step : Editor → Nat → EdRes) (ed : Editor)
    (as bs : List Nat) :
    edLoop step ed (as ++ bs) =
      match edLoop step ed as with
      | .ok x => edLoop step x bs
      | .err x e => .err x e
      | .panicked pe => .panicked pe := by
  induction as generalizing ed with
  | nil => simp [edLoop]
  | cons a rest ih =>
    simp only [List.cons_append, edLoop_cons]
    cases h : step ed a with
    | ok x => exact ih x
    | err x e => rfl
    | panicked pe => rfl

theorem for_each_go_spec (f : Editor → Nat → Nat → EdRes) (wid : Nat)
    (ids : List Nat) :
    ∀ (ed : Editor) (errs : List MovementError) (edf : Editor)
      (es : List MovementError),
    runSteps f wid ed ids = some (edf, es) →
    for_each_go f wid ed errs ids =
      match (errs ++ es).getLast? with
      | some e => .err edf e
      | none => .ok edf := by
  induction ids with
  | nil =>
    intro ed errs edf es h
    simp only [runSteps, Option.some.injEq, Prod.mk.injEq] at h
    obtain ⟨h1, h2⟩ := h
    subst h1
    subst h2
    simp [for_each_go]
  | cons i rest ih =>
    intro ed errs edf es h
    unfold runSteps at h
    unfold for_each_go
    cases hf : f ed wid i with
    | ok ed' =>
      rw [hf] at h
      exact ih ed' errs edf es h
    | err ed' e0 =>
      simp only [hf] at h
      cases hr : runSteps f wid ed' rest with
      | none =>
        rw [hr] at h
        simp at h
      | some r =>
        obtain ⟨edr, esr⟩ := r
        simp only [hr, Option.some.injEq, Prod.mk.injEq] at h
        obtain ⟨h1, h2⟩ := h
        subst h1
        subst h2
        dsimp only
        rw [ih ed' (errs ++ [e0]) edr esr hr]
        have hl : (errs ++ [e0]) ++ esr = errs ++ e0 :: esr := by simp
        rw [hl]
    | panicked pe =>
      simp [hf] at h

/-! ## Claims -/

/-- C1. The claim says that after `Selection::remove_from` the selection is
collapsed to a single point and the buffer still ends with a newline.  On
buffer `"abc\n"` with the selection collapsed at (1,4) — the cursor resting
on the final newline — `remove_from` deletes that newline and leaves the
buffer `"abc"`, which does not end with a newline (the selection *is*
collapsed, to (1,3)–(1,3)).  This evaluates the code at the failing input;
the source itself carries the comment `TODO: the file must be terminated by
a final newline` at exactly this spot. -/
theorem C1_remove_from_drops_final_newline :
    Selection.remove_from { start := ⟨1, 4⟩, end_ := ⟨1, 4⟩ } ("abc\n".toList)
      = .ok ("abc".toList) { start := ⟨1, 3⟩, end_ := ⟨1, 3⟩ }
    ∧ ("abc".toList).getLast? ≠ some '\n' := by
  constructor
  · rfl
  · decide

/-- C2. The claim says the empty-first-line case of the non-fix
`Position::validate` is signalled as the recoverable error `SelectionEmpty`
and never aborts the process.  The code instead executes
`panic!(MovementError::SelectionEmpty)` — a process abort (the function
returns `()` and has no error channel at all).  This evaluates the code at
the failing input: the empty buffer with the position at (1,1). -/
theorem C2_validate_aborts_on_empty_buffer :
    Position.validate ⟨1, 1⟩ ([] : List Char) = .panicked (some .selectionEmpty) := by
  rfl

/-- C3, counterexample.  With two point selections at (1,1) and (2,1) on
buffer `"a\nb\n"` and a bulk `Up` move, the first selection fails with
`NoPrevLine` and `move_selections` returns that error at once with the
editor unchanged: the second selection has *not* been moved, although its
own `Up` move succeeds — refuting the claim that remaining selections are
still moved and the error surfaced afterwards. -/
theorem C3_move_selections_stops_at_first_error :
    Editor.move_selections edTwoSel 0 .up false = .err edTwoSel .noPrevLine
    ∧ Position.move_to ⟨2, 1⟩ ("a\nb\n".toList) .up = .ok ⟨1, 1⟩ := by
  constructor
  · rfl
  · rfl

/-- C3, amended.  Two policies coexist in the source and neither matches
the claim.  First conjunct: `Edot::move_selections` applies `?` to each
per-selection move, so it stops at the *first* selection whose movement
fails, at any index `i`: if the loop over the ids below `i` succeeded and
selection `i`'s move fails, the whole bulk move returns exactly that
failure — the returned editor is the one from the failed step, and every
selection other than `i` is exactly as it was when the failure happened
(in particular the selections after `i` are never moved).  Second
conjunct: the collect-errors-and-continue policy exists only in
`Edot::for_each_selection`, which `move_selections` does not use; it
processes every selection and then surfaces the *last* collected error
(`errors.pop()`), not the first. -/
theorem C3_amended_bulk_stop_and_last_error :
    (∀ (ed edi ed' : Editor) (wid i : Nat) (m : Movement) (drag : Bool)
      (e : MovementError),
      i < (ed.winOf wid).selections.length →
      edLoop (fun acc sid => acc.move_selection wid sid m drag) ed
          (List.range i) = .ok edi →
      edi.move_selection wid i m drag = .err ed' e →
      ed.move_selections wid m drag = .err ed' e ∧
        ∀ j, j ≠ i → ed'.selOf wid j = edi.selOf wid j)
    ∧ (∀ (f : Editor → Nat → Nat → EdRes) (ed edf : Editor) (wid : Nat)
        (es : List MovementError) (e : MovementError),
      runSteps f wid ed (ed.selIds wid) = some (edf, es) →
      es.getLast? = some e →
      ed.for_each_selection wid f = .err edf e) := by
  constructor
  · intro ed edi ed' wid i m drag e hi hpre hfail
    constructor
    · obtain ⟨rest, hsplit⟩ := range_split i _ hi
      unfold Editor.move_selections Editor.selIds
      rw [hsplit, edLoop_append]
      rw [hpre]
      dsimp only
      unfold edLoop
      simp only [hfail]
    · intro j hj
      unfold Editor.move_selection at hfail
      cases hmv : (edi.selOf wid i).end_.move_to (edi.contentOf wid) m <;>
        simp only [hmv] at hfail
      case ok p => exact absurd hfail (by simp)
      case panicked pe => exact absurd hfail (by simp)
      case err e0 p0 =>
        simp only [EdRes.err.injEq] at hfail
        obtain ⟨hed, _⟩ := hfail
        subst hed
        have hw : wid < ed.windows.length := by
          by_contra hc
          push_neg at hc
          have hd : ed.winOf wid = wdef := getD_eq_default_of_le _ _ _ hc
          rw [hd] at hi
          simp [wdef] at hi
        have hwi : wid < edi.windows.length := by
          have := edLoop_moveSel_ok_shape wid m drag (List.range i) ed edi hpre
          omega
        unfold Editor.selOf Editor.setSel Editor.setWin Editor.winOf
        dsimp only
        rw [getD_set_self _ _ _ _ hwi]
        dsimp only
        rw [getD_set_ne _ _ _ _ _ (Ne.symm hj)]
  · intro f ed edf wid es e hrun hlast
    unfold Editor.for_each_selection
    rw [for_each_go_spec f wid (ed.selIds wid) ed [] edf es hrun]
    simp only [List.nil_append, hlast]

/-- C3, witness for the amended theorem, at concrete states: the bulk
`Up` on `edTwoSel` fails at selection 0 and returns immediately; and a
`for_each_selection` run whose two steps collect `NoPrevLine` then
`NoNextLine` surfaces the last error, `NoNextLine`. -/
theorem C3_amended_witness :
    Editor.move_selections edTwoSel 0 .up false = .err edTwoSel .noPrevLine
    ∧ Editor.for_each_selection edTwoSel 0
        (fun acc _ sid =>
          if sid = 0 then EdRes.err acc .noPrevLine else EdRes.err acc .noNextLine)
      = .err edTwoSel .noNextLine := by
  constructor
  · exact (C3_amended_bulk_stop_and_last_error.1 edTwoSel edTwoSel edTwoSel 0 0 .up
      false .noPrevLine (by decide) (by rfl) (by rfl)).1
  · exact C3_amended_bulk_stop_and_last_error.2
      (fun acc _ sid =>
        if sid = 0 then EdRes.err acc .noPrevLine else EdRes.err acc .noNextLine)
      edTwoSel edTwoSel 0 [.noPrevLine, .noNextLine] .noNextLine (by rfl) (by rfl)

/-- C6. Scenario A: from the fresh editor (buffer `"\n"`, one selection at
(1,1)–(1,1), Normal mode), the key sequence `i`, `a`, `b`, `c`, Escape
yields buffer `"abc\n"`, selection (1,4)–(1,4), Normal mode — for any
Command-mode dispatch function, which this sequence never invokes. -/
theorem C6_scenario_insert_abc (dispatch : Editor → List Char → EdRes) :
    processKeys dispatch initEditor
        [.char 'i', .char 'a', .char 'b', .char 'c', .esc]
      = .ok { windows := [{ buffer := 0, mode := .normal,
                            selections := [{ start := ⟨1, 4⟩, end_ := ⟨1, 4⟩ }],
                            command := [], top := 1 }],
              buffers := [{ path := none, name := "scratch".toList,
                            content := "abc\n".toList }],
              focused := 0,
              message := none } := by
  rfl

/-- C8. Dispatching `edit <path>` (or `e <path>`) for a path the filesystem
cannot resolve fails inside `Edit::run` before any editor mutation; the
main loop catches the error and records it as the status message.  The
resulting editor differs from the original only in `message`: same buffers,
same windows, same focused window id. -/
theorem C8_edit_missing_path_state_unchanged (fs : List Char → Option (List Char))
    (ed : Editor) (name path : List Char)
    (hname : name = "e".toList ∨ name = "edit".toList)
    (hfs : fs path = none) :
    ∃ m, cmdRun fs ed [name, path] = .ok { ed with message := some m } := by
  refine ⟨"No such file or directory".toList, ?_⟩
  rcases hname with h | h <;> subst h <;> simp [cmdRun, cmdDispatch, editRun, hfs]

/-- C8, witness: `edit missing.txt` against an empty filesystem, from the
fresh editor. -/
theorem C8_witness :
    ∃ m, cmdRun (fun _ => none) initEditor ["edit".toList, "missing.txt".toList]
      = .ok { initEditor with message := some m } :=
  C8_edit_missing_path_state_unchanged (fun _ => none) initEditor
    ("edit".toList) ("missing.txt".toList) (Or.inr rfl) rfl

/-- C9. `Selection::is_ordered` compares the unmodified `start` against the
*ordered* copy's `end`, which is the lexicographic maximum of the two
endpoints — so it returns `true` for every selection, including backward
ones where `start` is strictly greater than `end`. -/
theorem C9_is_ordered_always_true (s : Selection) : s.is_ordered = true := by
  unfold Selection.is_ordered Selection.ordered Selection.flip
  split
  · simp [Position.leB]
  · next h =>
    simp only [Position.ltB, Position.leB, Bool.or_eq_true, Bool.and_eq_true,
      decide_eq_true_eq, not_or, not_and] at h ⊢
    omega

/-- Unfolding of the `Movement::Right` arm of `move_to`. -/
theorem move_to_right_def (rope : List Char) (p : Position) :
    p.move_to rope .right =
      match p.validate rope with
      | .ok q =>
        if q.line ≤ numLines rope then
          if q.column = (lineOf rope q.line).length then
            (mDown rope q).andThen (mLineStart rope)
          else .ok { q with column := q.column + 1 }
        else .panicked none
      | .panicked pe => .panicked pe := rfl

/-- Unfolding of the `Movement::Left` arm of `move_to`. -/
theorem move_to_left_def (rope : List Char) (p : Position) :
    p.move_to rope .left =
      match p.validate rope with
      | .ok q =>
        if q.column = 1 then
          if q.line ≠ 1 then (mUp rope q).andThen (mLineEnd rope)
          else .err .noPrevLine q
        else .ok { q with column := q.column - 1 }
      | .panicked pe => .panicked pe := rfl

/-- C5. Characterisation of `Movement::Down` for a position whose line
exists in the buffer: it succeeds, incrementing the line, exactly when the
current line is not the last one and the line below has non-zero character
length; in every other case it fails with `NoNextLine` and the position is
untouched.  In particular, when the last line is empty (trailing newline
only) and the cursor sits on the line above it, `Down` fails with
`NoNextLine` and never lands on the empty trailing line. -/
theorem C5_down_succeeds_iff_next_line_nonempty (rope : List Char) (p : Position)
    (h1 : 1 ≤ p.line) (h2 : p.line ≤ numLines rope) :
    p.move_to rope .down =
      if p.line ≠ numLines rope ∧ 0 < (lineOf rope (p.line + 1)).length
      then .ok { p with line := p.line + 1 }
      else .err .noNextLine p := by
  have hd : p.move_to rope .down = mDown rope p := rfl
  rw [hd]
  unfold mDown
  by_cases hl : p.line = numLines rope
  · rw [if_pos hl, if_neg (by simp [hl])]
  · rw [if_neg hl, if_pos (by omega)]
    by_cases hlen : 0 < (lineOf rope (p.line + 1)).length
    · rw [if_pos hlen, if_pos ⟨hl, hlen⟩]
    · rw [if_neg hlen, if_neg (by tauto)]

/-- C5, witness: Scenario C.  Buffer `"a\n"` has an empty trailing line 2;
with the cursor on line 1 just above it, `Down` fails with `NoNextLine`. -/
theorem C5_witness_trailing_empty_line :
    Position.move_to ⟨1, 1⟩ ("a\n".toList) .down = .err .noNextLine ⟨1, 1⟩ := by
  have h := C5_down_succeeds_iff_next_line_nonempty ("a\n".toList) ⟨1, 1⟩
    (by decide) (by decide)
  rw [h]
  decide

/-- C10. On a buffer containing at least one character, `Movement::FileEnd`
always succeeds (no `MovementError`), landing at column 1 of the last line
when that line is non-empty and at column 1 of the line before it
otherwise; on a buffer with zero characters the computation `last − 1`
underflows `Line` below 1 and aborts the process instead of returning an
error. -/
theorem C10_fileEnd_total_on_nonempty (rope : List Char) (p : Position) :
    (0 < rope.length →
      p.move_to rope .fileEnd =
        .ok { line := (if 0 < (lineOf rope (numLines rope)).length
                       then numLines rope else numLines rope - 1),
              column := 1 })
    ∧ (rope.length = 0 → p.move_to rope .fileEnd = .panicked none) := by
  constructor
  · intro h
    have hmv : p.move_to rope .fileEnd = mFileEnd rope p := rfl
    rw [hmv]
    unfold mFileEnd
    by_cases h1 : 0 < (lineOf rope (numLines rope)).length
    · simp [h1, mLineStart]
    · have hne : numLines rope ≠ 1 := by
        intro heq
        have hsing := lines_eq_singleton rope heq
        rw [heq] at h1
        have : lineOf rope 1 = rope := by simp [lineOf, hsing]
        rw [this] at h1
        omega
      simp [h1, hne, mLineStart]
  · intro h
    have : rope = [] := List.length_eq_zero.mp h
    subst this
    rfl

/-- C10, witness: on the one-character buffer `"a\n"` (whose last line is
the empty trailing line), `FileEnd` lands at (1,1); and the hypothesis of
the first conjunct holds. -/
theorem C10_witness :
    0 < ("a\n".toList).length ∧
    Position.move_to ⟨1, 1⟩ ("a\n".toList) .fileEnd
      = .ok { line := (if 0 < (lineOf ("a\n".toList) (numLines ("a\n".toList))).length
                       then numLines ("a\n".toList) else numLines ("a\n".toList) - 1),
              column := 1 } :=
  ⟨by decide, (C10_fileEnd_total_on_nonempty ("a\n".toList) ⟨1, 1⟩).1 (by decide)⟩

/-- C4. Right-then-Left inversion and Down-then-Up line restoration, for a
valid position.  Whenever `Right` succeeds from a valid position, a
following `Left` succeeds and returns exactly the original position —
including the wrap case, where `Right` lands at column 1 of the next line
and `Left` wraps back to the end of the previous line, which is where the
cursor started.  Whenever `Down` succeeds, a following `Up` succeeds and
returns to a position on the original line (in fact the exact original
position, since neither arm touches the column). -/
theorem C4_right_left_down_up (rope : List Char) (p : Position) (h : PosValid rope p) :
    (∀ p', p.move_to rope .right = .ok p' → p'.move_to rope .left = .ok p)
    ∧ (∀ q, p.move_to rope .down = .ok q →
        ∃ r, q.move_to rope .up = .ok r ∧ r.line = p.line) := by
  obtain ⟨pl, pc⟩ := p
  obtain ⟨h1, h2, h3, h4⟩ := h
  simp only at h1 h2 h3 h4
  constructor
  · intro p' hp'
    have hval : Position.validate ⟨pl, pc⟩ rope = .ok ⟨pl, pc⟩ :=
      validate_of_valid rope ⟨pl, pc⟩ ⟨h1, h2, h3, h4⟩
    rw [move_to_right_def, hval] at hp'
    dsimp only at hp'
    rw [if_pos h2] at hp'
    by_cases hc : pc = (lineOf rope pl).length
    · rw [if_pos hc] at hp'
      unfold mDown at hp'
      dsimp only at hp'
      by_cases hl : pl = numLines rope
      · rw [if_pos hl] at hp'
        exact absurd hp' (by simp [MRes.andThen])
      · rw [if_neg hl, if_pos (by omega)] at hp'
        by_cases hlen : 0 < (lineOf rope (pl + 1)).length
        · rw [if_pos hlen] at hp'
          simp only [MRes.andThen, mLineStart, MRes.ok.injEq] at hp'
          subst hp'
          have hval' : Position.validate ⟨pl + 1, 1⟩ rope = .ok ⟨pl + 1, 1⟩ :=
            validate_of_valid rope ⟨pl + 1, 1⟩
              (by refine ⟨?_, ?_, ?_, ?_⟩ <;> dsimp only <;> omega)
          rw [move_to_left_def, hval']
          dsimp only
          rw [if_pos rfl, if_pos (by omega)]
          unfold mUp
          dsimp only
          rw [if_neg (by omega)]
          simp only [MRes.andThen]
          unfold mLineEnd
          dsimp only
          have he : pl + 1 - 1 = pl := by omega
          rw [he, if_pos (by omega), if_neg (by omega)]
          simp only [MRes.ok.injEq, Position.mk.injEq]
          exact ⟨trivial, hc.symm⟩
        · rw [if_neg hlen] at hp'
          exact absurd hp' (by simp [MRes.andThen])
    · rw [if_neg hc] at hp'
      simp only [MRes.ok.injEq] at hp'
      subst hp'
      have hval' : Position.validate ⟨pl, pc + 1⟩ rope = .ok ⟨pl, pc + 1⟩ :=
        validate_of_valid rope ⟨pl, pc + 1⟩
          (by refine ⟨?_, ?_, ?_, ?_⟩ <;> dsimp only <;> omega)
      rw [move_to_left_def, hval']
      dsimp only
      rw [if_neg (by omega)]
      simp only [MRes.ok.injEq, Position.mk.injEq]
      exact ⟨trivial, by omega⟩
  · intro q hq
    have hd : Position.move_to ⟨pl, pc⟩ rope .down = mDown rope ⟨pl, pc⟩ := rfl
    rw [hd] at hq
    unfold mDown at hq
    dsimp only at hq
    by_cases hl : pl = numLines rope
    · rw [if_pos hl] at hq
      exact absurd hq (by simp)
    · rw [if_neg hl] at hq
      by_cases hle : pl + 1 ≤ numLines rope
      · rw [if_pos hle] at hq
        by_cases hlen : 0 < (lineOf rope (pl + 1)).length
        · rw [if_pos hlen] at hq
          simp only [MRes.ok.injEq] at hq
          subst hq
          refine ⟨⟨pl + 1 - 1, pc⟩, ?_, by simp⟩
          have hu : Position.move_to ⟨pl + 1, pc⟩ rope .up = mUp rope ⟨pl + 1, pc⟩ := rfl
          rw [hu]
          unfold mUp
          dsimp only
          rw [if_neg (by omega)]
        · rw [if_neg hlen] at hq
          exact absurd hq (by simp)
      · rw [if_neg hle] at hq
        exact absurd hq (by simp)

/-- C4, witness: on buffer `"ab\n"` the position (1,2) is valid; `Right`
moves to (1,3) and the theorem gives that `Left` returns to (1,2). -/
theorem C4_witness :
    Position.move_to ⟨1, 3⟩ ("ab\n".toList) .left = .ok ⟨1, 2⟩ :=
  (C4_right_left_down_up ("ab\n".toList) ⟨1, 2⟩
      ⟨by decide, by decide, by decide, by decide⟩).1 ⟨1, 3⟩ (by decide)

/-- Shape of a trivially successful branch result. -/
theorem okShape (ed x : Editor) (h : EdRes.ok ed = .ok x) :
    x.focused = ed.focused ∧ x.windows.length = ed.windows.length := by
  injection h with h
  subst h
  exact ⟨rfl, rfl⟩

/-- Core of the Goto-mode claim: whatever key arrives, the Goto arm either
succeeds with the focused window back in Normal mode, or aborts; it never
returns a recoverable error. -/
theorem gotoKey_core (ed : Editor) (drag : Bool) (k : Key)
    (hf : ed.focused < ed.windows.length) :
    (∀ ed', gotoKey ed drag k = .ok ed' → (ed'.winOf ed'.focused).mode = .normal)
    ∧ (∀ ed' e, gotoKey ed drag k ≠ .err ed' e) := by
  unfold gotoKey
  cases k with
  | char c =>
    dsimp only
    by_cases h1 : c = 'h'
    · rw [if_pos h1]
      exact gotoFinish ed hf _
        (fun x hx => move_selections_ok_shape ed ed.focused .lineStart drag x hx)
        (fun x e => move_selections_gotoMv_not_err ed ed.focused .lineStart drag
          (Or.inl rfl) x e)
    · rw [if_neg h1]
      by_cases h2 : c = 'j'
      · rw [if_pos h2]
        exact gotoFinish ed hf _
          (fun x hx => move_selections_ok_shape ed ed.focused .fileEnd drag x hx)
          (fun x e => move_selections_gotoMv_not_err ed ed.focused .fileEnd drag
            (Or.inr (Or.inr (Or.inr rfl))) x e)
      · rw [if_neg h2]
        by_cases h3 : c = 'k'
        · rw [if_pos h3]
          exact gotoFinish ed hf _
            (fun x hx => move_selections_ok_shape ed ed.focused .fileStart drag x hx)
            (fun x e => move_selections_gotoMv_not_err ed ed.focused .fileStart drag
              (Or.inr (Or.inr (Or.inl rfl))) x e)
        · rw [if_neg h3]
          by_cases h4 : c = 'l'
          · rw [if_pos h4]
            exact gotoFinish ed hf _
              (fun x hx => move_selections_ok_shape ed ed.focused .lineEnd drag x hx)
              (fun x e => move_selections_gotoMv_not_err ed ed.focused .lineEnd drag
                (Or.inr (Or.inl rfl)) x e)
          · rw [if_neg h4]
            exact gotoFinish ed hf _ (okShape ed) (by simp)
  | esc => exact gotoFinish ed hf _ (okShape ed) (by simp)
  | backspace => exact gotoFinish ed hf _ (okShape ed) (by simp)
  | arrowLeft => exact gotoFinish ed hf _ (okShape ed) (by simp)
  | arrowRight => exact gotoFinish ed hf _ (okShape ed) (by simp)
  | arrowUp => exact gotoFinish ed hf _ (okShape ed) (by simp)
  | arrowDown => exact gotoFinish ed hf _ (okShape ed) (by simp)
  | other => exact gotoFinish ed hf _ (okShape ed) (by simp)

/-- C7. In Goto mode, processing any single key event — one of h/j/k/l or
an unmatched key — leaves the focused window in Normal mode whenever the
event handler returns; and the handler never exits early with a
recoverable `MovementError` (the four Goto movements have none), so the
only way the mode could fail to be Normal afterwards is a process abort,
after which there is no window state at all. -/
theorem C7_goto_returns_to_normal (dispatch : Editor → List Char → EdRes)
    (ed : Editor) (k : Key) (drag : Bool)
    (hf : ed.focused < ed.windows.length)
    (hm : (ed.winOf ed.focused).mode = .goto drag) :
    (∀ ed', Editor.event dispatch ed k = .ok ed' →
        (ed'.winOf ed'.focused).mode = .normal)
    ∧ (∀ ed' e, Editor.event dispatch ed k ≠ .err ed' e) := by
  have hev : Editor.event dispatch ed k = gotoKey ed drag k := by
    unfold Editor.event
    rw [hm]
  rw [hev]
  exact gotoKey_core ed drag k hf

/-- C7, witness: from the fresh editor put into Goto mode, the key `j`
(FileEnd) completes and the focused window is back in Normal mode. -/
theorem C7_witness :
    Editor.event (fun e _ => EdRes.ok e) gotoEd (.char 'j') = .ok initEditor
    ∧ (initEditor.winOf initEditor.focused).mode = .normal := by
  have h := C7_goto_returns_to_normal (fun e _ => EdRes.ok e) gotoEd (.char 'j') false
    (by decide) (by decide)
  exact ⟨by decide, h.1 initEditor (by decide)⟩
